import Mathlib

/-!
Verification of the `ai-pashu` farmer husbandry assistant service
(`src/main.py`).

The service keeps an in-memory map from session ids to lists of
query/answer exchanges, builds a prompt embedding the session history,
invokes an external model, splits the model's reply at the literal
marker "Context:", appends the exchange to the session, and returns a
structured response carrying a fixed disclaimer note.

Strings are modelled as `List Char`, with executable counterparts of the
Python string operations the code uses (`strip`, `find`/`in`,
`split(sep, 1)`, `replace(old, "")`, `"\n".join`).  The external model
call is abstracted by a `ModelOutcome` parameter: a successful call
carrying the raw reply text, a `google.api_core.exceptions.GoogleAPIError`
raised by the provider's client library, or any other exception.
-/

set_option maxRecDepth 16000
set_option maxHeartbeats 1600000

/-- Whitespace test matching Python's `str.strip` on ASCII text
(space, tab, newline, carriage return, vertical tab, form feed). -/
def isWS (c : Char) : Bool :=
  decide (c = ' ' ∨ c = '\t' ∨ c = '\n' ∨ c = '\r' ∨ c = '\x0b' ∨ c = '\x0c')

/-- Python `str.lstrip()`. -/
def lstripCL (l : List Char) : List Char := l.dropWhile isWS

/-- Python `str.rstrip()`. -/
def rstripCL (l : List Char) : List Char := (l.reverse.dropWhile isWS).reverse

/-- Python `str.strip()`. -/
def stripCL (l : List Char) : List Char := lstripCL (rstripCL l)

/-- `hasPrefixCL pat l` is true when `pat` is an initial segment of `l`
(Python `str.startswith`, and the elementary test under `str.find`). -/
def hasPrefixCL : List Char → List Char → Bool
  | [], _ => true
  | _ :: _, [] => false
  | p :: ps, c :: cs => if p = c then hasPrefixCL ps cs else false

/-- Python `str.find`: index of the first occurrence of `pat` in `l`,
`none` when absent. -/
def findSub : List Char → List Char → Option Nat
  | [], pat => if hasPrefixCL pat [] then some 0 else none
  | c :: t, pat =>
    if hasPrefixCL pat (c :: t) then some 0
    else (findSub t pat).map (· + 1)

/-- Python `pat in l` (substring containment). -/
def containsSub (l pat : List Char) : Bool := (findSub l pat).isSome

/-- Number of (possibly overlapping) positions of `l` at which `pat`
occurs.  Used to state the "exactly one occurrence of the marker"
side conditions of the specification. -/
def occCount : List Char → List Char → Nat
  | [], _ => 0
  | c :: t, pat => (if hasPrefixCL pat (c :: t) then 1 else 0) + occCount t pat

/-- Structural scanner behind `replaceAllCL`: when the skip counter is
positive the character belongs to an occurrence already matched and is
discarded; at counter `0` a fresh match of `pat` is tried. -/
def rmAux (pat : List Char) : List Char → Nat → List Char
  | [], _ => []
  | c :: t, 0 =>
    if hasPrefixCL pat (c :: t) ∧ pat ≠ [] then rmAux pat t (pat.length - 1)
    else c :: rmAux pat t 0
  | _ :: t, k + 1 => rmAux pat t k

/-- Python `l.replace(pat, "")`: delete every (leftmost, non-overlapping)
occurrence of `pat`. -/
def replaceAllCL (l pat : List Char) : List Char := rmAux pat l 0

/-- Python `"sep".join`, mirroring `str.join` on a list of pieces. -/
def joinSep (sep : List Char) : List (List Char) → List Char
  | [] => []
  | [x] => x
  | x :: y :: t => x ++ sep ++ joinSep sep (y :: t)

/-! ### String constants of `src/main.py` -/

/-- The marker searched for by `text_output.split("Context:", 1)`. -/
def ctxMarker : List Char := "Context:".toList

/-- The prefix removed by `parts[0].replace("Answer:", "")`. -/
def answerMarker : List Char := "Answer:".toList

/-- Fallback context used when the model output has no "Context:" marker. -/
def genericContext : List Char :=
  "This advice is important for improving animal health and productivity in practical farming conditions.".toList

/-- Answer returned when the provider call raises `GoogleAPIError`. -/
def fallbackAnswer : List Char :=
  "Sorry, I am unable to answer your query right now.".toList

/-- Context returned when the provider call raises `GoogleAPIError`. -/
def fallbackContext : List Char :=
  "Try again later or consult a nearby veterinary expert.".toList

/-- The fixed disclaimer of the `note` field of `FarmerResponse`. -/
def disclaimerNote : List Char :=
  "This is AI-generated information. Please consult a veterinary expert for critical issues.".toList

/-- Default `session_id` of a `FarmerQuery`. -/
def defaultSessionId : List Char := "default".toList

/-- Text of `HUSBANDRY_PROMPT_TEMPLATE` before `{query}`, without the
two newlines preceding `{query}`. -/
def headCore : List Char :=
  "You are an expert in animal husbandry. A farmer has asked the following question:".toList

/-- Text of `HUSBANDRY_PROMPT_TEMPLATE` after `{previous_context}`,
without its leading newline. -/
def tailCore : List Char :=
  "Give the response in two parts:\n1. Answer → direct and practical guidance in simple language.\n2. Context → explain why this answer is important, provide background info, preventive measures, or related best practices.\nKeep the explanation simple and actionable for farmers.".toList

/-- The header text of the previous-conversation block, without its
trailing newline. -/
def prevHeaderCore : List Char := "Previous conversation:".toList

/-- Text of `HUSBANDRY_PROMPT_TEMPLATE` before `{query}`. -/
def promptHead : List Char := headCore ++ ('\n' :: '\n' :: [])

/-- Text of `HUSBANDRY_PROMPT_TEMPLATE` after `{previous_context}`. -/
def promptTail : List Char := '\n' :: tailCore

/-- Header line of the previous-conversation block. -/
def prevHeader : List Char := prevHeaderCore ++ ('\n' :: [])

/-- The rendering prefix `"Farmer: "` of a stored query. -/
def farmerTagSp : List Char := "Farmer: ".toList

/-- The rendering infix `"\nAI: "` between a stored query and answer. -/
def aiTagSp : List Char := "\nAI: ".toList

/-- The tag `"Farmer:"` counted when checking history lines in a prompt. -/
def farmerTag : List Char := "Farmer:".toList

/-- The tag `"AI:"` counted when checking history lines in a prompt. -/
def aiTag : List Char := "AI:".toList

/-! ### Data model -/

/-- One `{"query": ..., "answer": ...}` record of `chat_sessions`. -/
structure Exchange where
  query : List Char
  answer : List Char
deriving DecidableEq

/-- The global `chat_sessions : Dict[str, List[Dict[str, str]]]`, as an
association list in dictionary insertion order. -/
def SessionStore : Type := List (List Char × List Exchange)

/-- Request body `FarmerQuery(query, session_id="default")`. -/
structure FarmerQuery where
  query : List Char
  session_id : List Char := defaultSessionId
deriving DecidableEq

/-- Response body `FarmerResponse(answer, context, note=...)`. -/
structure FarmerResponse where
  answer : List Char
  context : List Char
  note : List Char := disclaimerNote
deriving DecidableEq

/-- Outcome of `genai.GenerativeModel(...).generate_content(prompt)`
together with the access to `response.text`: the raw reply text, a
`GoogleAPIError` from the provider's client library, or any other
exception (e.g. a `ValueError` for a blocked response). -/
inductive ModelOutcome where
  | success (text : List Char)
  | googleAPIError
  | otherException
deriving DecidableEq

/-- `chat_sessions.get(session_id, [])`. -/
def getSession : SessionStore → List Char → List Exchange
  | [], _ => []
  | (k, v) :: t, sid => if k = sid then v else getSession t sid

/-- `chat_sessions.setdefault(session_id, []).append({"query": q, "answer": a})`:
appends one exchange, creating the session if absent. -/
def appendExchange : SessionStore → List Char → List Char → List Char → SessionStore
  | [], sid, q, a => [(sid, [⟨q, a⟩])]
  | (k, v) :: t, sid, q, a =>
    if k = sid then (k, v ++ [⟨q, a⟩]) :: t
    else (k, v) :: appendExchange t sid q a

/-! ### Prompt builder (lines 59-70 of `src/main.py`) -/

/-- Rendering `f"Farmer: {item['query']}\nAI: {item['answer']}"` of one
stored exchange. -/
def renderExchange (e : Exchange) : List Char :=
  farmerTagSp ++ e.query ++ aiTagSp ++ e.answer

/-- `previous_context_text`: empty for an empty history, otherwise the
"Previous conversation:" header followed by the newline-joined exchange
renderings. -/
def previousContextText (history : List Exchange) : List Char :=
  if history = [] then []
  else prevHeader ++ joinSep ['\n'] (history.map renderExchange)

/-- `HUSBANDRY_PROMPT_TEMPLATE.format(query=req.query.strip(), previous_context=...)`. -/
def buildPrompt (query : List Char) (history : List Exchange) : List Char :=
  promptHead ++ stripCL query ++ ('\n' :: '\n' :: []) ++ previousContextText history ++ promptTail

/-- The prompt the handler builds for a request against a given store. -/
def handlerPrompt (st : SessionStore) (req : FarmerQuery) : List Char :=
  buildPrompt req.query (getSession st req.session_id)

/-! ### Response splitter (lines 75-84 of `src/main.py`) -/

/-- `text_output = response.text.strip()` followed by the
`"Context:" in text_output` split: on a hit, the part before the first
marker with every `"Answer:"` removed and stripped becomes the answer and
the stripped part after the marker becomes the context; otherwise the
whole stripped text is the answer and `genericContext` the context. -/
def splitModelOutput (raw : List Char) : List Char × List Char :=
  let t := stripCL raw
  match findSub t ctxMarker with
  | some i =>
    (stripCL (replaceAllCL (t.take i) answerMarker),
     stripCL (t.drop (i + ctxMarker.length)))
  | none => (t, genericContext)

/-! ### Request handler (lines 56-96 of `src/main.py`) -/

/-- `farmer_husbandry_assistant`: reads the session history, builds the
prompt, and — depending on the model-call outcome — splits the reply or
substitutes the fallback pair (`GoogleAPIError` only), appends the
exchange, and returns the response.  Any other exception propagates
(`Except.error`) and leaves the store unchanged. -/
def farmer_husbandry_assistant (st : SessionStore) (req : FarmerQuery)
    (outcome : ModelOutcome) : Except Unit FarmerResponse × SessionStore :=
  match outcome with
  | .success raw =>
    let p := splitModelOutput raw
    (Except.ok ⟨p.1, p.2, disclaimerNote⟩,
     appendExchange st req.session_id req.query p.1)
  | .googleAPIError =>
    (Except.ok ⟨fallbackAnswer, fallbackContext, disclaimerNote⟩,
     appendExchange st req.session_id req.query fallbackAnswer)
  | .otherException => (Except.error (), st)

/-! ### Concrete inputs and auxiliary definitions for the claims -/

/-- Raw model output without any "Context:" marker, for the C4 witness. -/
def c4WitnessRaw : List Char := "  Give the calves fresh water daily.  ".toList

/-- The answer the claim's wording predicts: the text before the marker
with a leading "Answer:" prefix (and only a leading one) stripped, then
whitespace-trimmed. -/
def claimLeadingStrip (s : List Char) : List Char :=
  stripCL (if hasPrefixCL answerMarker s then s.drop answerMarker.length else s)

/-- Model output with exactly one "Context:" marker whose pre-marker text
contains "Answer:" other than as a leading prefix. -/
def c1CexRaw : List Char := "xAnswer:y Context: z".toList

/-- Raw model output with exactly one "Context:" marker, for the C1
witness. -/
def c1WitnessRaw : List Char :=
  " Answer: Feed a balanced diet. Context: Nutrition matters. ".toList

/-- Raw model output containing two "Context:" markers, for the C5
witness; the first occurrence is at position 2. -/
def c5WitnessRaw : List Char := "a Context: b Context: c".toList

/-- Query for the C3 witness. -/
def c3WitnessQuery : List Char := "How much water do dairy cows need".toList

/-- Two-exchange history for the C3 witness. -/
def c3WitnessHistory : List Exchange :=
  [⟨"q1".toList, "a1".toList⟩, ⟨"q2".toList, "a2".toList⟩]

/-- `Reaches st st'`: the store `st'` arises from `st` by some sequence
of later handler invocations (with arbitrary requests and model
outcomes). -/
inductive Reaches : SessionStore → SessionStore → Prop
  | refl (st : SessionStore) : Reaches st st
  | step {st st' st'' : SessionStore} (req : FarmerQuery) (outcome : ModelOutcome)
      (r : Except Unit FarmerResponse) :
      Reaches st st' → farmer_husbandry_assistant st' req outcome = (r, st'') →
      Reaches st st''

/-- The store after the first request of the C6 witness. -/
def c6Store1 : SessionStore := [("s1".toList, [⟨"q1".toList, "a1".toList⟩])]

/-! ### Lemmas about `hasPrefixCL` -/

theorem hasPrefixCL_cons_head_ne {p c : Char} (ps cs : List Char) (h : p ≠ c) :
    hasPrefixCL (p :: ps) (c :: cs) = false := by
  simp [hasPrefixCL, h]

theorem length_le_of_hasPrefixCL {pat l : List Char}
    (h : hasPrefixCL pat l = true) : pat.length ≤ l.length := by
  induction pat generalizing l with
  | nil => simp
  | cons p ps ih =>
    cases l with
    | nil => simp [hasPrefixCL] at h
    | cons c cs =>
      simp only [hasPrefixCL] at h
      split at h
      · simpa using ih h
      · simp at h

theorem hasPrefixCL_append_self (pat v : List Char) :
    hasPrefixCL pat (pat ++ v) = true := by
  induction pat with
  | nil => simp [hasPrefixCL]
  | cons p ps ih => simpa [hasPrefixCL] using ih

theorem hasPrefixCL_iff_take {pat l : List Char} :
    hasPrefixCL pat l = true ↔ l.take pat.length = pat := by
  induction pat generalizing l with
  | nil => simp [hasPrefixCL]
  | cons p ps ih =>
    cases l with
    | nil => simp [hasPrefixCL]
    | cons c cs =>
      simp only [hasPrefixCL, List.length_cons, List.take_succ_cons]
      constructor
      · intro h
        split at h
        · next hpc => simp [hpc, ih.mp h]
        · simp at h
      · intro h
        have h1 : c = p := by injection h
        have h2 : cs.take ps.length = ps := by injection h
        simp [h1, ih.mpr h2]

/-- If `pat` is a prefix of `y ++ z` and `y` is not longer than `pat`,
then `y` is a prefix of `pat`. -/
theorem hasPrefixCL_of_append_long {pat y z : List Char}
    (h : hasPrefixCL pat (y ++ z) = true) (hlen : y.length ≤ pat.length) :
    hasPrefixCL y pat = true := by
  induction y generalizing pat with
  | nil => rfl
  | cons a y' ih =>
    cases pat with
    | nil => simp at hlen
    | cons p ps =>
      simp only [List.cons_append, hasPrefixCL] at h ⊢
      split at h
      · next hpa =>
        rw [if_pos hpa.symm]
        exact ih h (by simpa using hlen)
      · simp at h

/-- A prefix test cannot cross into an appended tail whose head character
does not occur in the pattern. -/
theorem hasPrefixCL_append_of_head_notMem {pat z : List Char} (y : List Char)
    (h : ∀ d : Char, z.head? = some d → d ∉ pat) :
    hasPrefixCL pat (y ++ z) = hasPrefixCL pat y := by
  induction pat generalizing y with
  | nil => simp [hasPrefixCL]
  | cons p ps ih =>
    cases y with
    | nil =>
      cases z with
      | nil => rfl
      | cons d z' =>
        have hpd : p ≠ d := fun he => (h d rfl) (by simp [he])
        rw [List.nil_append, hasPrefixCL_cons_head_ne _ _ hpd]
        rfl
    | cons c y' =>
      simp only [List.cons_append, hasPrefixCL]
      split
      · exact ih y' (fun d hd hm => h d hd (List.mem_cons_of_mem _ hm))
      · rfl

/-! ### Lemmas about `findSub` -/

theorem findSub_cons (c : Char) (t pat : List Char) :
    findSub (c :: t) pat =
      if hasPrefixCL pat (c :: t) then some 0 else (findSub t pat).map (· + 1) := rfl

theorem findSub_nil {pat : List Char} (h : pat ≠ []) : findSub [] pat = none := by
  cases pat with
  | nil => simp at h
  | cons p ps => simp [findSub, hasPrefixCL]

theorem hasPrefixCL_drop_of_findSub {l pat : List Char} {i : Nat}
    (h : findSub l pat = some i) : hasPrefixCL pat (l.drop i) = true := by
  induction l generalizing i with
  | nil =>
    simp only [findSub] at h
    split at h
    · next hp => cases h; simpa using hp
    · simp at h
  | cons c t ih =>
    simp only [findSub] at h
    split at h
    · next hp => cases h; simpa using hp
    · cases hfnd : findSub t pat with
      | none => simp [hfnd] at h
      | some j =>
        simp only [hfnd, Option.map_some'] at h
        cases h
        simpa using ih hfnd

theorem findSub_min {l pat : List Char} {i : Nat}
    (h : findSub l pat = some i) : ∀ k, k < i → hasPrefixCL pat (l.drop k) = false := by
  induction l generalizing i with
  | nil =>
    intro k hk
    simp only [findSub] at h
    split at h
    · cases h; omega
    · simp at h
  | cons c t ih =>
    intro k hk
    simp only [findSub] at h
    split at h
    · cases h; omega
    · next hp =>
      cases hfnd : findSub t pat with
      | none => simp [hfnd] at h
      | some j =>
        simp only [hfnd, Option.map_some'] at h
        cases h
        cases k with
        | zero => simpa using (Bool.eq_false_iff.mpr hp)
        | succ k' => simpa using ih hfnd k' (by omega)

theorem findSub_isSome_of_hasPrefixCL {l pat : List Char} {k : Nat}
    (h : hasPrefixCL pat (l.drop k) = true) : (findSub l pat).isSome := by
  induction l generalizing k with
  | nil =>
    simp only [List.drop_nil] at h
    simp [findSub, h]
  | cons c t ih =>
    cases k with
    | zero =>
      simp only [List.drop_zero] at h
      simp [findSub, h]
    | succ k' =>
      simp only [List.drop_succ_cons] at h
      have := ih h
      simp only [findSub]
      split
      · simp
      · simpa using this

theorem findSub_append_left_ws {a pat : List Char} (x : List Char)
    (ha : ∀ c ∈ a, isWS c = true)
    (hp : ∃ q qs, pat = q :: qs ∧ isWS q = false) :
    findSub (a ++ x) pat = (findSub x pat).map (· + a.length) := by
  induction a with
  | nil =>
    cases hfnd : findSub x pat <;> simp [hfnd]
  | cons c a' ih =>
    obtain ⟨q, qs, hpat, hq⟩ := hp
    have hqc : q ≠ c := by
      intro he
      have hc := ha c (by simp)
      rw [← he, hq] at hc
      simp at hc
    have hcond : hasPrefixCL pat (c :: (a' ++ x)) = false := by
      rw [hpat]
      exact hasPrefixCL_cons_head_ne _ _ hqc
    have ih' := ih (fun d hd => ha d (List.mem_cons_of_mem _ hd))
    rw [List.cons_append, findSub_cons, hcond, if_neg (by simp), ih']
    cases hfnd : findSub x pat with
    | none => simp
    | some j =>
      simp only [Option.map_some', List.length_cons]
      exact congrArg some (Nat.add_assoc _ _ _)

theorem findSub_all_ws {b pat : List Char}
    (hb : ∀ c ∈ b, isWS c = true) (hp : pat ≠ [])
    (hpw : ∀ c ∈ pat, isWS c = false) : findSub b pat = none := by
  induction b with
  | nil => exact findSub_nil hp
  | cons c b' ih =>
    cases pat with
    | nil => simp at hp
    | cons q qs =>
      have hqc : q ≠ c := by
        intro he
        have h1 := hpw q (by simp)
        have h2 := hb c (by simp)
        rw [he, h2] at h1
        simp at h1
      have ih' := ih (fun d hd => hb d (List.mem_cons_of_mem _ hd))
      simp [findSub, hasPrefixCL_cons_head_ne _ _ hqc, ih']

theorem findSub_append_right_ws {b pat : List Char} (x : List Char)
    (hb : ∀ c ∈ b, isWS c = true) (hp : pat ≠ [])
    (hpw : ∀ c ∈ pat, isWS c = false) :
    findSub (x ++ b) pat = findSub x pat := by
  induction x with
  | nil => rw [List.nil_append, findSub_all_ws hb hp hpw, findSub_nil hp]
  | cons c x' ih =>
    have hhead : ∀ d : Char, b.head? = some d → d ∉ pat := by
      intro d hd hm
      have h1 := hpw d hm
      have h2 : d ∈ b := by
        cases b with
        | nil => simp at hd
        | cons e b' => simp at hd; simp [hd]
      rw [hb d h2] at h1
      simp at h1
    have hcond := hasPrefixCL_append_of_head_notMem (c :: x') hhead
    simp only [List.cons_append] at hcond
    rw [List.cons_append, findSub_cons, findSub_cons, hcond, ih]

/-! ### Lemmas about `occCount` -/

theorem occCount_cons (c : Char) (t pat : List Char) :
    occCount (c :: t) pat =
      (if hasPrefixCL pat (c :: t) then 1 else 0) + occCount t pat := rfl

theorem occCount_pos_of_hasPrefixCL {l pat : List Char} {k : Nat}
    (h : hasPrefixCL pat (l.drop k) = true) (hp : pat ≠ []) :
    0 < occCount l pat := by
  induction l generalizing k with
  | nil =>
    simp only [List.drop_nil] at h
    cases pat with
    | nil => simp at hp
    | cons q qs => simp [hasPrefixCL] at h
  | cons c t ih =>
    cases k with
    | zero =>
      simp only [List.drop_zero] at h
      simp [occCount_cons, h]
    | succ k' =>
      simp only [List.drop_succ_cons] at h
      have := ih h
      simp only [occCount_cons]
      omega

theorem exists_hasPrefixCL_of_occCount_pos {l pat : List Char}
    (h : 0 < occCount l pat) : ∃ k, hasPrefixCL pat (l.drop k) = true := by
  induction l with
  | nil => simp [occCount] at h
  | cons c t ih =>
    by_cases hc : hasPrefixCL pat (c :: t) = true
    · exact ⟨0, by simpa using hc⟩
    · have ht : 0 < occCount t pat := by
        simp only [occCount_cons, hc] at h
        simpa using h
      obtain ⟨k, hk⟩ := ih ht
      exact ⟨k + 1, by simpa using hk⟩

theorem findSub_none_of_occCount_zero {l pat : List Char}
    (h : occCount l pat = 0) (hp : pat ≠ []) : findSub l pat = none := by
  cases hfnd : findSub l pat with
  | none => rfl
  | some i =>
    have := occCount_pos_of_hasPrefixCL (hasPrefixCL_drop_of_findSub hfnd) hp
    omega

theorem occCount_of_findSub {l pat : List Char} {i : Nat}
    (h : findSub l pat = some i) (hpne : pat ≠ []) :
    occCount l pat = 1 + occCount (l.drop (i + 1)) pat := by
  induction l generalizing i with
  | nil =>
    simp only [findSub] at h
    split at h
    · next hp =>
      cases pat with
      | nil => simp at hpne
      | cons q qs => simp [hasPrefixCL] at hp
    · simp at h
  | cons c t ih =>
    simp only [findSub] at h
    split at h
    · next hp =>
      cases h
      simp [occCount_cons, hp]
    · next hp =>
      cases hfnd : findSub t pat with
      | none => simp [hfnd] at h
      | some j =>
        simp only [hfnd, Option.map_some'] at h
        cases h
        have hfalse : hasPrefixCL pat (c :: t) = false := Bool.eq_false_iff.mpr hp
        simp only [occCount_cons, hfalse, List.drop_succ_cons]
        rw [ih hfnd]
        simp

theorem occCount_append_of_head_notMem {b pat : List Char} (a : List Char)
    (hd : ∀ d : Char, b.head? = some d → d ∉ pat) :
    occCount (a ++ b) pat = occCount a pat + occCount b pat := by
  induction a with
  | nil => simp [occCount]
  | cons c a' ih =>
    have hcond := hasPrefixCL_append_of_head_notMem (c :: a') hd
    simp only [List.cons_append] at hcond
    rw [List.cons_append, occCount_cons, occCount_cons, hcond, ih]
    omega

theorem occCount_all_ws {b pat : List Char}
    (hb : ∀ c ∈ b, isWS c = true) (hp : pat ≠ [])
    (hpw : ∀ c ∈ pat, isWS c = false) : occCount b pat = 0 := by
  induction b with
  | nil => rfl
  | cons c b' ih =>
    cases pat with
    | nil => simp at hp
    | cons q qs =>
      have hqc : q ≠ c := by
        intro he
        have h1 := hpw q (by simp)
        have h2 := hb c (by simp)
        rw [he, h2] at h1
        simp at h1
      have ih' := ih (fun d hd => hb d (List.mem_cons_of_mem _ hd))
      simp [occCount_cons, hasPrefixCL_cons_head_ne _ _ hqc, ih']

theorem occCount_append_left_ws {a pat : List Char} (x : List Char)
    (ha : ∀ c ∈ a, isWS c = true)
    (hp : ∃ q qs, pat = q :: qs ∧ isWS q = false) :
    occCount (a ++ x) pat = occCount x pat := by
  induction a with
  | nil => simp
  | cons c a' ih =>
    obtain ⟨q, qs, hpat, hq⟩ := hp
    have hqc : q ≠ c := by
      intro he
      have hc := ha c (by simp)
      rw [← he, hq] at hc
      simp at hc
    have hcond : hasPrefixCL pat (c :: (a' ++ x)) = false := by
      rw [hpat]
      exact hasPrefixCL_cons_head_ne _ _ hqc
    have ih' := ih (fun d hd => ha d (List.mem_cons_of_mem _ hd))
    rw [List.cons_append, occCount_cons, hcond, if_neg (by simp), ih']
    simp

theorem occCount_append_right_ws {b pat : List Char} (x : List Char)
    (hb : ∀ c ∈ b, isWS c = true) (hp : pat ≠ [])
    (hpw : ∀ c ∈ pat, isWS c = false) :
    occCount (x ++ b) pat = occCount x pat := by
  induction x with
  | nil =>
    rw [List.nil_append, occCount_all_ws hb hp hpw]
    rfl
  | cons c x' ih =>
    have hhead : ∀ d : Char, b.head? = some d → d ∉ pat := by
      intro d hd hm
      have h1 := hpw d hm
      have h2 : d ∈ b := by
        cases b with
        | nil => simp at hd
        | cons e b' => simp at hd; simp [hd]
      rw [hb d h2] at h1
      simp at h1
    have hcond := hasPrefixCL_append_of_head_notMem (c :: x') hhead
    simp only [List.cons_append] at hcond
    rw [List.cons_append, occCount_cons, occCount_cons, hcond, ih]

/-! ### Whitespace decomposition of `stripCL` -/

theorem rstripCL_decomp (l : List Char) :
    ∃ rp, l = rstripCL l ++ rp ∧ ∀ c ∈ rp, isWS c = true := by
  refine ⟨(l.reverse.takeWhile isWS).reverse, ?_, ?_⟩
  · have h := List.takeWhile_append_dropWhile isWS l.reverse
    have h2 := congrArg List.reverse h
    rw [List.reverse_append, List.reverse_reverse] at h2
    exact h2.symm
  · intro c hc
    exact List.mem_takeWhile_imp (List.mem_reverse.mp hc)

theorem stripCL_decomp (l : List Char) :
    ∃ lp rp, l = lp ++ stripCL l ++ rp ∧
      (∀ c ∈ lp, isWS c = true) ∧ (∀ c ∈ rp, isWS c = true) := by
  obtain ⟨rp, hrp, hrpw⟩ := rstripCL_decomp l
  refine ⟨(rstripCL l).takeWhile isWS, rp, ?_, ?_, hrpw⟩
  · calc l = rstripCL l ++ rp := hrp
    _ = (List.takeWhile isWS (rstripCL l) ++ List.dropWhile isWS (rstripCL l)) ++ rp := by
        rw [List.takeWhile_append_dropWhile]
    _ = List.takeWhile isWS (rstripCL l) ++ stripCL l ++ rp := rfl
  · intro c hc
    exact List.mem_takeWhile_imp hc

theorem stripCL_append_right_ws {b : List Char} (y : List Char)
    (hb : ∀ c ∈ b, isWS c = true) : stripCL (y ++ b) = stripCL y := by
  have hb' : List.dropWhile isWS b.reverse = [] :=
    List.dropWhile_eq_nil_iff.mpr (fun c hc => hb c (List.mem_reverse.mp hc))
  unfold stripCL rstripCL
  rw [List.reverse_append, List.dropWhile_append, hb']
  simp

theorem stripCL_append_left_ws {a : List Char} (y : List Char)
    (ha : ∀ c ∈ a, isWS c = true) : stripCL (a ++ y) = stripCL y := by
  have ha' : List.dropWhile isWS a.reverse = [] :=
    List.dropWhile_eq_nil_iff.mpr (fun c hc => ha c (List.mem_reverse.mp hc))
  have ha'' : List.dropWhile isWS a = [] :=
    List.dropWhile_eq_nil_iff.mpr ha
  simp only [stripCL, lstripCL, rstripCL]
  rw [List.reverse_append, List.dropWhile_append]
  by_cases hy : (List.dropWhile isWS y.reverse).isEmpty = true
  · rw [if_pos hy, ha']
    rw [List.isEmpty_iff] at hy
    rw [hy]
  · rw [if_neg hy, List.reverse_append, List.reverse_reverse, List.dropWhile_append, ha'']
    simp

/-! ### Concrete facts about the markers -/

theorem ctxMarker_ne_nil : ctxMarker ≠ [] := by decide

theorem ctxMarker_no_ws : ∀ c ∈ ctxMarker, isWS c = false := by decide

theorem ctxMarker_head : ∃ q qs, ctxMarker = q :: qs ∧ isWS q = false :=
  ⟨'C', "ontext:".toList, by decide, by decide⟩

theorem answerMarker_head : ∃ q qs, answerMarker = q :: qs ∧ isWS q = false :=
  ⟨'A', "nswer:".toList, by decide, by decide⟩

theorem ctxMarker_length : ctxMarker.length = 8 := by decide

/-! ### Lemmas about `replaceAllCL` -/

theorem rmAux_cons_zero (pat : List Char) (c : Char) (t : List Char) :
    rmAux pat (c :: t) 0 =
      if hasPrefixCL pat (c :: t) ∧ pat ≠ [] then rmAux pat t (pat.length - 1)
      else c :: rmAux pat t 0 := rfl

theorem replaceAllCL_append_left_ws {a : List Char} (y pat : List Char)
    (ha : ∀ c ∈ a, isWS c = true)
    (hp : ∃ q qs, pat = q :: qs ∧ isWS q = false) :
    replaceAllCL (a ++ y) pat = a ++ replaceAllCL y pat := by
  induction a with
  | nil => simp
  | cons c a' ih =>
    obtain ⟨q, qs, hpat, hq⟩ := hp
    have hqc : q ≠ c := by
      intro he
      have hc := ha c (by simp)
      rw [← he, hq] at hc
      simp at hc
    have hcond : hasPrefixCL pat (c :: (a' ++ y)) = false := by
      rw [hpat]
      exact hasPrefixCL_cons_head_ne _ _ hqc
    have ih' := ih (fun d hd => ha d (List.mem_cons_of_mem _ hd))
    show rmAux pat (c :: (a' ++ y)) 0 = (c :: a') ++ replaceAllCL y pat
    rw [rmAux_cons_zero, if_neg (by simp [hcond])]
    show c :: replaceAllCL (a' ++ y) pat = (c :: a') ++ replaceAllCL y pat
    rw [ih']
    rfl

/-! ### Bridging `findSub` over the initial `strip` of the splitter -/

theorem findSub_stripCL_bridge (raw : List Char) {pat : List Char}
    (hp : pat ≠ []) (hpw : ∀ c ∈ pat, isWS c = false) :
    ∃ lp rp, raw = lp ++ stripCL raw ++ rp ∧
      (∀ c ∈ lp, isWS c = true) ∧ (∀ c ∈ rp, isWS c = true) ∧
      findSub raw pat = (findSub (stripCL raw) pat).map (· + lp.length) := by
  obtain ⟨lp, rp, hdecomp, hlp, hrp⟩ := stripCL_decomp raw
  have hhead : ∃ q qs, pat = q :: qs ∧ isWS q = false := by
    cases pat with
    | nil => simp at hp
    | cons q qs => exact ⟨q, qs, rfl, hpw q (by simp)⟩
  refine ⟨lp, rp, hdecomp, hlp, hrp, ?_⟩
  conv_lhs => rw [hdecomp]
  rw [List.append_assoc, findSub_append_left_ws _ hlp hhead,
    findSub_append_right_ws _ hrp hp hpw]

theorem occCount_stripCL_eq (raw : List Char) {pat : List Char}
    (hp : pat ≠ []) (hpw : ∀ c ∈ pat, isWS c = false) :
    occCount (stripCL raw) pat = occCount raw pat := by
  obtain ⟨lp, rp, hdecomp, hlp, hrp⟩ := stripCL_decomp raw
  have hhead : ∃ q qs, pat = q :: qs ∧ isWS q = false := by
    cases pat with
    | nil => simp at hp
    | cons q qs => exact ⟨q, qs, rfl, hpw q (by simp)⟩
  conv_rhs => rw [hdecomp]
  rw [List.append_assoc, occCount_append_left_ws _ hlp hhead,
    occCount_append_right_ws _ hrp hp hpw]

/-! ### Characterisation of the response splitter -/

/-- When the marker occurs in the raw output at first position `i`, the
splitter's result is determined by the raw text around position `i`. -/
theorem splitModelOutput_marker {raw : List Char} {i : Nat}
    (hfind : findSub raw ctxMarker = some i) :
    splitModelOutput raw =
      (stripCL (replaceAllCL (raw.take i) answerMarker),
       stripCL (raw.drop (i + ctxMarker.length))) := by
  obtain ⟨lp, rp, hdecomp, hlp, hrp, hbridge⟩ :=
    findSub_stripCL_bridge raw ctxMarker_ne_nil ctxMarker_no_ws
  rw [hbridge] at hfind
  cases hfnd_t : findSub (stripCL raw) ctxMarker with
  | none => rw [hfnd_t] at hfind; simp at hfind
  | some j =>
    rw [hfnd_t] at hfind
    simp only [Option.map_some', Option.some_inj] at hfind
    -- hfind : j + lp.length = i
    have hj8 : j + ctxMarker.length ≤ (stripCL raw).length := by
      have hpre := hasPrefixCL_drop_of_findSub hfnd_t
      have hlen := length_le_of_hasPrefixCL hpre
      rw [List.length_drop] at hlen
      have h8 := ctxMarker_length
      omega
    have htake : raw.take i = lp ++ (stripCL raw).take j := by
      conv_lhs => rw [hdecomp]
      rw [List.append_assoc, List.take_append_eq_append_take,
        List.take_of_length_le (by omega : lp.length ≤ i)]
      congr 1
      have : i - lp.length = j := by omega
      rw [this, List.take_append_of_le_length (by omega : j ≤ (stripCL raw).length)]
    have hdrop : raw.drop (i + ctxMarker.length) =
        (stripCL raw).drop (j + ctxMarker.length) ++ rp := by
      conv_lhs => rw [hdecomp]
      rw [List.append_assoc, List.drop_append_eq_append_drop,
        List.drop_of_length_le (by omega : lp.length ≤ i + ctxMarker.length),
        List.nil_append]
      have : i + ctxMarker.length - lp.length = j + ctxMarker.length := by omega
      rw [this, List.drop_append_of_le_length hj8]
    show (match findSub (stripCL raw) ctxMarker with
      | some k =>
        (stripCL (replaceAllCL ((stripCL raw).take k) answerMarker),
         stripCL ((stripCL raw).drop (k + ctxMarker.length)))
      | none => (stripCL raw, genericContext)) = _
    rw [hfnd_t]
    rw [htake, hdrop,
      replaceAllCL_append_left_ws _ _ hlp answerMarker_head,
      stripCL_append_left_ws _ hlp,
      stripCL_append_right_ws _ hrp]

/-- When the marker does not occur in the raw output, the splitter
returns the whole stripped text and the fixed generic context. -/
theorem splitModelOutput_no_marker {raw : List Char}
    (hfind : findSub raw ctxMarker = none) :
    splitModelOutput raw = (stripCL raw, genericContext) := by
  obtain ⟨lp, rp, hdecomp, hlp, hrp, hbridge⟩ :=
    findSub_stripCL_bridge raw ctxMarker_ne_nil ctxMarker_no_ws
  rw [hbridge] at hfind
  cases hfnd_t : findSub (stripCL raw) ctxMarker with
  | some j => rw [hfnd_t] at hfind; simp at hfind
  | none =>
    show (match findSub (stripCL raw) ctxMarker with
      | some k =>
        (stripCL (replaceAllCL ((stripCL raw).take k) answerMarker),
         stripCL ((stripCL raw).drop (k + ctxMarker.length)))
      | none => (stripCL raw, genericContext)) = _
    rw [hfnd_t]

/-! ### Lemmas about the session store -/

theorem getSession_appendExchange_same (st : SessionStore) (sid q a : List Char) :
    getSession (appendExchange st sid q a) sid = getSession st sid ++ [⟨q, a⟩] := by
  induction st with
  | nil => simp [appendExchange, getSession]
  | cons kv t ih =>
    obtain ⟨k, v⟩ := kv
    by_cases hk : k = sid
    · simp [appendExchange, getSession, hk]
    · simp [appendExchange, getSession, hk, ih]

theorem getSession_appendExchange_other (st : SessionStore) {sid sid' : List Char}
    (q a : List Char) (h : sid' ≠ sid) :
    getSession (appendExchange st sid' q a) sid = getSession st sid := by
  induction st with
  | nil => simp [appendExchange, getSession, h]
  | cons kv t ih =>
    obtain ⟨k, v⟩ := kv
    by_cases hk : k = sid'
    · have hks : k ≠ sid := fun he => h (hk ▸ he)
      simp [appendExchange, getSession, hk, hks, h]
    · by_cases hks : k = sid
      · simp [appendExchange, getSession, hk, hks, Ne.symm h]
      · simp [appendExchange, getSession, hk, hks, ih]

/-! ### Inversion of the handler on completed requests -/

theorem farmer_ok_inv {st : SessionStore} {req : FarmerQuery} {outcome : ModelOutcome}
    {resp : FarmerResponse} {st' : SessionStore}
    (h : farmer_husbandry_assistant st req outcome = (Except.ok resp, st')) :
    st' = appendExchange st req.session_id req.query resp.answer ∧
    resp.note = disclaimerNote := by
  cases outcome with
  | success raw =>
    simp only [farmer_husbandry_assistant] at h
    rw [Prod.mk.injEq] at h
    obtain ⟨h1, h2⟩ := h
    injection h1 with h1
    subst h1
    exact ⟨h2.symm, rfl⟩
  | googleAPIError =>
    simp only [farmer_husbandry_assistant] at h
    rw [Prod.mk.injEq] at h
    obtain ⟨h1, h2⟩ := h
    injection h1 with h1
    subst h1
    exact ⟨h2.symm, rfl⟩
  | otherException =>
    simp only [farmer_husbandry_assistant] at h
    rw [Prod.mk.injEq] at h
    obtain ⟨h1, h2⟩ := h
    exact absurd h1 (by simp)

/-! ### Claim C2 -/

/-- C2: on a provider failure (`GoogleAPIError`), the handler returns a
normal (non-error) response whose answer is exactly
"Sorry, I am unable to answer your query right now." and whose context is
exactly "Try again later or consult a nearby veterinary expert."; the
failure never propagates as a request failure. -/
theorem C2_provider_failure_fallback (st : SessionStore) (req : FarmerQuery) :
    farmer_husbandry_assistant st req ModelOutcome.googleAPIError =
      (Except.ok
        ⟨"Sorry, I am unable to answer your query right now.".toList,
         "Try again later or consult a nearby veterinary expert.".toList,
         disclaimerNote⟩,
       appendExchange st req.session_id req.query fallbackAnswer) := rfl

/-! ### Claim C7 -/

/-- C7: every request the handler runs to completion (returns a response
rather than propagating an exception) appends exactly one
`{query, answer}` exchange to the requested session's transcript —
creating the session if absent — and leaves all other sessions
unchanged; this includes the fallback path taken on provider failure. -/
theorem C7_appends_one_exchange (st : SessionStore) (req : FarmerQuery)
    (outcome : ModelOutcome) (resp : FarmerResponse) (st' : SessionStore)
    (h : farmer_husbandry_assistant st req outcome = (Except.ok resp, st')) :
    getSession st' req.session_id =
      getSession st req.session_id ++ [⟨req.query, resp.answer⟩] ∧
    ∀ sid, sid ≠ req.session_id → getSession st' sid = getSession st sid := by
  obtain ⟨hst, -⟩ := farmer_ok_inv h
  subst hst
  refine ⟨getSession_appendExchange_same st _ _ _, ?_⟩
  intro sid hsid
  exact getSession_appendExchange_other st _ _ (fun he => hsid he.symm)

/-- Witness for C7 at a concrete request. -/
theorem C7_appends_one_exchange_witness :
    farmer_husbandry_assistant [] ⟨"q1".toList, "s1".toList⟩
        (ModelOutcome.success "Answer: a1 Context: c1".toList) =
      (Except.ok ⟨"a1".toList, "c1".toList, disclaimerNote⟩,
       [("s1".toList, [⟨"q1".toList, "a1".toList⟩])]) ∧
    (getSession [("s1".toList, [⟨"q1".toList, "a1".toList⟩])] "s1".toList =
      getSession ([] : SessionStore) "s1".toList ++ [⟨"q1".toList, "a1".toList⟩] ∧
    ∀ sid, sid ≠ "s1".toList →
      getSession [("s1".toList, [⟨"q1".toList, "a1".toList⟩])] sid =
        getSession ([] : SessionStore) sid) :=
  ⟨rfl, C7_appends_one_exchange [] ⟨"q1".toList, "s1".toList⟩
    (ModelOutcome.success "Answer: a1 Context: c1".toList)
    ⟨"a1".toList, "c1".toList, disclaimerNote⟩
    [("s1".toList, [⟨"q1".toList, "a1".toList⟩])] rfl⟩

/-! ### Claim C8 -/

/-- C8: the `note` field of every completed response is the identical
fixed string "This is AI-generated information. Please consult a
veterinary expert for critical issues.", regardless of query, session
or model output — so any two responses carry the same note. -/
theorem C8_note_fixed (st : SessionStore) (req : FarmerQuery)
    (outcome : ModelOutcome) (resp : FarmerResponse) (st' : SessionStore)
    (h : farmer_husbandry_assistant st req outcome = (Except.ok resp, st')) :
    resp.note =
      "This is AI-generated information. Please consult a veterinary expert for critical issues.".toList :=
  (farmer_ok_inv h).2

/-- Witness for C8 at a concrete request. -/
theorem C8_note_fixed_witness :
    farmer_husbandry_assistant [] ⟨"q2".toList, "s2".toList⟩
        ModelOutcome.googleAPIError =
      (Except.ok ⟨fallbackAnswer, fallbackContext, disclaimerNote⟩,
       [("s2".toList, [⟨"q2".toList, fallbackAnswer⟩])]) ∧
    (FarmerResponse.mk fallbackAnswer fallbackContext disclaimerNote).note =
      "This is AI-generated information. Please consult a veterinary expert for critical issues.".toList :=
  ⟨rfl, C8_note_fixed [] ⟨"q2".toList, "s2".toList⟩ ModelOutcome.googleAPIError
    ⟨fallbackAnswer, fallbackContext, disclaimerNote⟩
    [("s2".toList, [⟨"q2".toList, fallbackAnswer⟩])] rfl⟩

/-! ### Claim C9 -/

/-- C9: an exception other than `GoogleAPIError` raised by the model
invocation (or the access to `response.text`) propagates out of the
handler and leaves the session store unchanged: no exchange is appended
for that request. -/
theorem C9_other_exception_propagates (st : SessionStore) (req : FarmerQuery) :
    farmer_husbandry_assistant st req ModelOutcome.otherException =
      (Except.error (), st) := rfl

/-! ### Claim C10 -/

theorem renderExchange_query_inj {q q' a : List Char}
    (h : renderExchange ⟨q, a⟩ = renderExchange ⟨q', a⟩) : q = q' := by
  simp only [renderExchange, List.append_assoc] at h
  have h1 := List.append_cancel_left h
  exact List.append_cancel_right h1

/-- C10: the prompt embeds the whitespace-trimmed query while the
exchange appended to the transcript records the original untrimmed
query; hence for a query with surrounding whitespace the stored
"Farmer:" line of later prompts differs from the query text the model
was actually shown. -/
theorem C10_trim_mismatch (st : SessionStore) (req : FarmerQuery)
    (outcome : ModelOutcome) (resp : FarmerResponse) (st' : SessionStore)
    (h : farmer_husbandry_assistant st req outcome = (Except.ok resp, st')) :
    handlerPrompt st req =
      promptHead ++ stripCL req.query ++ ('\n' :: '\n' :: []) ++
        previousContextText (getSession st req.session_id) ++ promptTail ∧
    getSession st' req.session_id =
      getSession st req.session_id ++ [⟨req.query, resp.answer⟩] ∧
    (stripCL req.query ≠ req.query →
      renderExchange ⟨req.query, resp.answer⟩ ≠
        renderExchange ⟨stripCL req.query, resp.answer⟩) := by
  obtain ⟨hst, -⟩ := farmer_ok_inv h
  subst hst
  refine ⟨rfl, getSession_appendExchange_same st _ _ _, ?_⟩
  intro hne hrender
  exact hne (renderExchange_query_inj hrender).symm

/-- Witness for C10 at a concrete request whose query carries
surrounding whitespace. -/
theorem C10_trim_mismatch_witness :
    farmer_husbandry_assistant [] ⟨" q3 ".toList, "s3".toList⟩
        (ModelOutcome.success "a3".toList) =
      (Except.ok ⟨"a3".toList, genericContext, disclaimerNote⟩,
       [("s3".toList, [⟨" q3 ".toList, "a3".toList⟩])]) ∧
    (handlerPrompt [] ⟨" q3 ".toList, "s3".toList⟩ =
      promptHead ++ stripCL " q3 ".toList ++ ('\n' :: '\n' :: []) ++
        previousContextText (getSession ([] : SessionStore) "s3".toList) ++ promptTail ∧
    getSession [("s3".toList, [⟨" q3 ".toList, "a3".toList⟩])] "s3".toList =
      getSession ([] : SessionStore) "s3".toList ++ [⟨" q3 ".toList, "a3".toList⟩] ∧
    (stripCL " q3 ".toList ≠ " q3 ".toList →
      renderExchange ⟨" q3 ".toList, "a3".toList⟩ ≠
        renderExchange ⟨stripCL " q3 ".toList, "a3".toList⟩)) :=
  ⟨rfl, C10_trim_mismatch [] ⟨" q3 ".toList, "s3".toList⟩
    (ModelOutcome.success "a3".toList)
    ⟨"a3".toList, genericContext, disclaimerNote⟩
    [("s3".toList, [⟨" q3 ".toList, "a3".toList⟩])] rfl⟩

/-! ### Claim C4 -/

/-- C4: for every model output with no "Context:" marker, the splitter
returns the whole whitespace-trimmed output as the answer and the fixed
generic sentence as the context. -/
theorem C4_no_marker_split (raw : List Char)
    (h : occCount raw ctxMarker = 0) :
    splitModelOutput raw = (stripCL raw, genericContext) :=
  splitModelOutput_no_marker (findSub_none_of_occCount_zero h ctxMarker_ne_nil)



/-- Witness for C4 at a concrete marker-free output. -/
theorem C4_no_marker_split_witness :
    occCount c4WitnessRaw ctxMarker = 0 ∧
    splitModelOutput c4WitnessRaw = (stripCL c4WitnessRaw, genericContext) :=
  ⟨by decide, C4_no_marker_split c4WitnessRaw (by decide)⟩

/-! ### Claim C1 -/





/-- C1 counterexample: the code removes every occurrence of "Answer:"
(`str.replace`), not merely a leading prefix, so on `c1CexRaw` — which
contains exactly one "Context:" marker, at position 10 — the produced
answer differs from the claim's predicted answer. -/
theorem C1_counterexample :
    occCount c1CexRaw ctxMarker = 1 ∧
    findSub c1CexRaw ctxMarker = some 10 ∧
    (splitModelOutput c1CexRaw).1 ≠ claimLeadingStrip (c1CexRaw.take 10) := by
  decide

/-- C1 (amended): for every model output containing exactly one
"Context:" marker (first occurrence at `i`), the splitter returns an
answer equal to the text before the marker with *all* occurrences of
"Answer:" removed and whitespace-trimmed, and a context equal to the
whitespace-trimmed text after the marker. -/
theorem C1_amended_split (raw : List Char) (i : Nat)
    (_h1 : occCount raw ctxMarker = 1)
    (hi : findSub raw ctxMarker = some i) :
    splitModelOutput raw =
      (stripCL (replaceAllCL (raw.take i) answerMarker),
       stripCL (raw.drop (i + ctxMarker.length))) :=
  splitModelOutput_marker hi



/-- Witness for C1 (amended) at a concrete output. -/
theorem C1_amended_split_witness :
    occCount c1WitnessRaw ctxMarker = 1 ∧
    findSub c1WitnessRaw ctxMarker = some 31 ∧
    splitModelOutput c1WitnessRaw =
      (stripCL (replaceAllCL (c1WitnessRaw.take 31) answerMarker),
       stripCL (c1WitnessRaw.drop (31 + ctxMarker.length))) :=
  ⟨by decide, by decide, C1_amended_split c1WitnessRaw 31 (by decide) (by decide)⟩

/-! ### Claim C5 -/

theorem containsSub_stripCL_of {x pat : List Char} (hp : pat ≠ [])
    (hpw : ∀ c ∈ pat, isWS c = false)
    (h : containsSub x pat = true) : containsSub (stripCL x) pat = true := by
  obtain ⟨lp, rp, -, -, -, hbridge⟩ := findSub_stripCL_bridge x hp hpw
  unfold containsSub at h ⊢
  rw [hbridge] at h
  cases hfnd : findSub (stripCL x) pat with
  | none => rw [hfnd] at h; simp at h
  | some j => simp

/-- C5: on model output containing the "Context:" marker two or more
times, the splitter splits at the first occurrence only — positions
before `i` hold no marker, the answer is derived from the text before
position `i` and the context from the entire remainder after it — and
the produced context still contains the later marker(s). -/
theorem C5_first_marker_split (raw : List Char) (i : Nat)
    (h2 : 2 ≤ occCount raw ctxMarker)
    (hi : findSub raw ctxMarker = some i) :
    (∀ k, k < i → hasPrefixCL ctxMarker (raw.drop k) = false) ∧
    splitModelOutput raw =
      (stripCL (replaceAllCL (raw.take i) answerMarker),
       stripCL (raw.drop (i + ctxMarker.length))) ∧
    containsSub (splitModelOutput raw).2 ctxMarker = true := by
  have h8 := ctxMarker_length
  refine ⟨findSub_min hi, splitModelOutput_marker hi, ?_⟩
  have hocc := occCount_of_findSub hi ctxMarker_ne_nil
  have hpos : 0 < occCount (raw.drop (i + 1)) ctxMarker := by omega
  obtain ⟨k, hk⟩ := exists_hasPrefixCL_of_occCount_pos hpos
  rw [List.drop_drop] at hk
  -- hk : the second occurrence sits at position i + 1 + k of raw
  have hj_ge : i + ctxMarker.length ≤ i + 1 + k := by
    by_contra hlt
    push_neg at hlt
    have hpi := hasPrefixCL_drop_of_findSub hi
    have heq : raw.drop i = ctxMarker ++ raw.drop (i + ctxMarker.length) := by
      have ht := hasPrefixCL_iff_take.mp hpi
      conv_lhs => rw [← List.take_append_drop ctxMarker.length (raw.drop i)]
      rw [ht, List.drop_drop]
    have hd : raw.drop (i + 1 + k) =
        ctxMarker.drop (i + 1 + k - i) ++ raw.drop (i + ctxMarker.length) := by
      have hsplit : raw.drop (i + 1 + k) = List.drop (i + 1 + k - i) (raw.drop i) := by
        rw [List.drop_drop]
        congr 1
        omega
      rw [hsplit, heq,
        List.drop_append_of_le_length (by omega : i + 1 + k - i ≤ ctxMarker.length)]
    rw [hd] at hk
    have hpp : hasPrefixCL (ctxMarker.drop (i + 1 + k - i)) ctxMarker = true := by
      have hlen :
          (ctxMarker.drop (i + 1 + k - i)).length ≤ ctxMarker.length := by
        rw [List.length_drop]; omega
      exact hasPrefixCL_of_append_long hk hlen
    have hfact : ∀ d, d < 8 → 1 ≤ d →
        hasPrefixCL (ctxMarker.drop d) ctxMarker = false := by decide
    have hkd := hfact (i + 1 + k - i) (by omega) (by omega)
    rw [hkd] at hpp
    simp at hpp
  have hk' : hasPrefixCL ctxMarker
      ((raw.drop (i + ctxMarker.length)).drop (i + 1 + k - (i + ctxMarker.length))) = true := by
    rw [List.drop_drop]
    have harith : i + ctxMarker.length + (i + 1 + k - (i + ctxMarker.length)) = i + 1 + k := by
      omega
    rw [harith]
    exact hk
  have hcontains : containsSub (raw.drop (i + ctxMarker.length)) ctxMarker = true := by
    unfold containsSub
    exact findSub_isSome_of_hasPrefixCL hk'
  rw [splitModelOutput_marker hi]
  exact containsSub_stripCL_of ctxMarker_ne_nil ctxMarker_no_ws hcontains



/-- Witness for C5 at a concrete output with two markers. -/
theorem C5_first_marker_split_witness :
    2 ≤ occCount c5WitnessRaw ctxMarker ∧
    findSub c5WitnessRaw ctxMarker = some 2 ∧
    ((∀ k, k < 2 → hasPrefixCL ctxMarker (c5WitnessRaw.drop k) = false) ∧
    splitModelOutput c5WitnessRaw =
      (stripCL (replaceAllCL (c5WitnessRaw.take 2) answerMarker),
       stripCL (c5WitnessRaw.drop (2 + ctxMarker.length))) ∧
    containsSub (splitModelOutput c5WitnessRaw).2 ctxMarker = true) :=
  ⟨by decide, by decide, C5_first_marker_split c5WitnessRaw 2 (by decide) (by decide)⟩

/-! ### Claim C3: counting history lines in the built prompt -/

/-- Fidelity of the composed `promptHead` to the literal of
`HUSBANDRY_PROMPT_TEMPLATE` in `src/main.py`. -/
theorem promptHead_literal :
    promptHead =
      "You are an expert in animal husbandry. A farmer has asked the following question:\n\n".toList := by
  decide

/-- Fidelity of the composed `promptTail` to the literal of
`HUSBANDRY_PROMPT_TEMPLATE` in `src/main.py`. -/
theorem promptTail_literal :
    promptTail =
      "\nGive the response in two parts:\n1. Answer → direct and practical guidance in simple language.\n2. Context → explain why this answer is important, provide background info, preventive measures, or related best practices.\nKeep the explanation simple and actionable for farmers.".toList := by
  decide

/-- Fidelity of the composed `prevHeader` to the literal
`"Previous conversation:\n"` in `src/main.py`. -/
theorem prevHeader_literal : prevHeader = "Previous conversation:\n".toList := by
  decide

theorem farmerTag_ne_nil : farmerTag ≠ [] := by decide

theorem farmerTag_no_ws : ∀ c ∈ farmerTag, isWS c = false := by decide

theorem aiTag_ne_nil : aiTag ≠ [] := by decide

theorem aiTag_no_ws : ∀ c ∈ aiTag, isWS c = false := by decide

theorem occ_headCore_farmer : occCount headCore farmerTag = 0 := by decide

theorem occ_headCore_ai : occCount headCore aiTag = 0 := by decide

theorem occ_prevHeaderCore_farmer : occCount prevHeaderCore farmerTag = 0 := by decide

theorem occ_prevHeaderCore_ai : occCount prevHeaderCore aiTag = 0 := by decide

theorem occ_tailCore_farmer : occCount tailCore farmerTag = 0 := by decide

theorem occ_tailCore_ai : occCount tailCore aiTag = 0 := by decide

theorem head_notMem_of_cons {c : Char} {pat : List Char} (y : List Char) (h : c ∉ pat) :
    ∀ d : Char, ((c :: y).head? = some d) → d ∉ pat := by
  intro d hd
  have hcd : c = d := by simpa using hd
  rwa [← hcd]

theorem occCount_cons_ne_farmer (c : Char) (y : List Char) (h : c ≠ 'F') :
    occCount (c :: y) farmerTag = occCount y farmerTag := by
  simp [farmerTag, occCount, hasPrefixCL, Ne.symm h]

theorem occCount_cons_ne_ai (c : Char) (y : List Char) (h : c ≠ 'A') :
    occCount (c :: y) aiTag = occCount y aiTag := by
  simp [aiTag, occCount, hasPrefixCL, Ne.symm h]

theorem occ_fsp_f (x : List Char) :
    occCount (farmerTagSp ++ x) farmerTag = 1 + occCount x farmerTag := by
  show occCount ('F' :: 'a' :: 'r' :: 'm' :: 'e' :: 'r' :: ':' :: ' ' :: x) farmerTag =
    1 + occCount x farmerTag
  simp [farmerTag, occCount, hasPrefixCL]

theorem occ_fsp_ai (x : List Char) :
    occCount (farmerTagSp ++ x) aiTag = occCount x aiTag := by
  show occCount ('F' :: 'a' :: 'r' :: 'm' :: 'e' :: 'r' :: ':' :: ' ' :: x) aiTag = occCount x aiTag
  simp [aiTag, occCount, hasPrefixCL]

theorem occ_aisp_ai (x : List Char) :
    occCount (aiTagSp ++ x) aiTag = 1 + occCount x aiTag := by
  show occCount ('\n' :: 'A' :: 'I' :: ':' :: ' ' :: x) aiTag = 1 + occCount x aiTag
  simp [aiTag, occCount, hasPrefixCL]

theorem occ_aisp_f (x : List Char) :
    occCount (aiTagSp ++ x) farmerTag = occCount x farmerTag := by
  show occCount ('\n' :: 'A' :: 'I' :: ':' :: ' ' :: x) farmerTag = occCount x farmerTag
  simp [farmerTag, occCount, hasPrefixCL]

theorem occ_render_farmer (e : Exchange)
    (hq : occCount e.query farmerTag = 0) (ha : occCount e.answer farmerTag = 0) :
    occCount (renderExchange e) farmerTag = 1 := by
  show occCount (farmerTagSp ++ e.query ++ aiTagSp ++ e.answer) farmerTag = 1
  rw [List.append_assoc, List.append_assoc, occ_fsp_f]
  have hb : ∀ d : Char, ((aiTagSp ++ e.answer).head? = some d) → d ∉ farmerTag := by
    intro d hd
    have h1 : (aiTagSp ++ e.answer).head? = some '\n' := rfl
    rw [h1] at hd
    injection hd with hd
    rw [← hd]
    decide
  rw [occCount_append_of_head_notMem _ hb, hq, occ_aisp_f, ha]

theorem occ_render_ai (e : Exchange)
    (hq : occCount e.query aiTag = 0) (ha : occCount e.answer aiTag = 0) :
    occCount (renderExchange e) aiTag = 1 := by
  show occCount (farmerTagSp ++ e.query ++ aiTagSp ++ e.answer) aiTag = 1
  rw [List.append_assoc, List.append_assoc, occ_fsp_ai]
  have hb : ∀ d : Char, ((aiTagSp ++ e.answer).head? = some d) → d ∉ aiTag := by
    intro d hd
    have h1 : (aiTagSp ++ e.answer).head? = some '\n' := rfl
    rw [h1] at hd
    injection hd with hd
    rw [← hd]
    decide
  rw [occCount_append_of_head_notMem _ hb, hq, occ_aisp_ai, ha]

theorem occ_joinSep_farmer (h : List Exchange)
    (hh : ∀ e ∈ h, occCount e.query farmerTag = 0 ∧ occCount e.answer farmerTag = 0) :
    occCount (joinSep ['\n'] (h.map renderExchange)) farmerTag = h.length := by
  induction h with
  | nil => rfl
  | cons e t ih =>
    cases t with
    | nil =>
      show occCount (renderExchange e) farmerTag = 1
      exact occ_render_farmer e (hh e (by simp)).1 (hh e (by simp)).2
    | cons e2 t2 =>
      show occCount
        (renderExchange e ++ ['\n'] ++ joinSep ['\n'] ((e2 :: t2).map renderExchange))
        farmerTag = (e :: e2 :: t2).length
      rw [List.append_assoc]
      simp only [List.cons_append, List.nil_append]
      rw [occCount_append_of_head_notMem _
        (head_notMem_of_cons _ (by decide : ('\n' : Char) ∉ farmerTag))]
      rw [occ_render_farmer e (hh e (by simp)).1 (hh e (by simp)).2]
      rw [occCount_cons_ne_farmer '\n' _ (by decide)]
      rw [ih (fun e' he' => hh e' (List.mem_cons_of_mem _ he'))]
      simp [List.length_cons]
      omega

theorem occ_joinSep_ai (h : List Exchange)
    (hh : ∀ e ∈ h, occCount e.query aiTag = 0 ∧ occCount e.answer aiTag = 0) :
    occCount (joinSep ['\n'] (h.map renderExchange)) aiTag = h.length := by
  induction h with
  | nil => rfl
  | cons e t ih =>
    cases t with
    | nil =>
      show occCount (renderExchange e) aiTag = 1
      exact occ_render_ai e (hh e (by simp)).1 (hh e (by simp)).2
    | cons e2 t2 =>
      show occCount
        (renderExchange e ++ ['\n'] ++ joinSep ['\n'] ((e2 :: t2).map renderExchange))
        aiTag = (e :: e2 :: t2).length
      rw [List.append_assoc]
      simp only [List.cons_append, List.nil_append]
      rw [occCount_append_of_head_notMem _
        (head_notMem_of_cons _ (by decide : ('\n' : Char) ∉ aiTag))]
      rw [occ_render_ai e (hh e (by simp)).1 (hh e (by simp)).2]
      rw [occCount_cons_ne_ai '\n' _ (by decide)]
      rw [ih (fun e' he' => hh e' (List.mem_cons_of_mem _ he'))]
      simp [List.length_cons]
      omega

theorem occ_buildPrompt_farmer (q : List Char) (h : List Exchange)
    (hq : occCount q farmerTag = 0)
    (hh : ∀ e ∈ h, occCount e.query farmerTag = 0 ∧ occCount e.answer farmerTag = 0) :
    occCount (buildPrompt q h) farmerTag = h.length := by
  have hsq : occCount (stripCL q) farmerTag = 0 := by
    rw [occCount_stripCL_eq q farmerTag_ne_nil farmerTag_no_ws, hq]
  rw [buildPrompt, promptHead, promptTail]
  simp only [List.append_assoc, List.cons_append, List.nil_append]
  rw [occCount_append_of_head_notMem headCore
    (head_notMem_of_cons _ (by decide : ('\n' : Char) ∉ farmerTag))]
  rw [occ_headCore_farmer]
  rw [occCount_cons_ne_farmer '\n' _ (by decide), occCount_cons_ne_farmer '\n' _ (by decide)]
  rw [occCount_append_of_head_notMem _
    (head_notMem_of_cons _ (by decide : ('\n' : Char) ∉ farmerTag)), hsq]
  rw [occCount_cons_ne_farmer '\n' _ (by decide), occCount_cons_ne_farmer '\n' _ (by decide)]
  cases h with
  | nil =>
    rw [previousContextText, if_pos rfl, List.nil_append]
    rw [occCount_cons_ne_farmer '\n' _ (by decide), occ_tailCore_farmer]
    simp
  | cons e t =>
    rw [previousContextText, if_neg (by simp), prevHeader]
    simp only [List.append_assoc, List.cons_append, List.nil_append]
    rw [occCount_append_of_head_notMem prevHeaderCore
      (head_notMem_of_cons _ (by decide : ('\n' : Char) ∉ farmerTag))]
    rw [occ_prevHeaderCore_farmer]
    rw [occCount_cons_ne_farmer '\n' _ (by decide)]
    rw [occCount_append_of_head_notMem _
      (head_notMem_of_cons _ (by decide : ('\n' : Char) ∉ farmerTag))]
    rw [occCount_cons_ne_farmer '\n' _ (by decide), occ_tailCore_farmer]
    rw [occ_joinSep_farmer (e :: t) hh]
    simp

theorem occ_buildPrompt_ai (q : List Char) (h : List Exchange)
    (hq : occCount q aiTag = 0)
    (hh : ∀ e ∈ h, occCount e.query aiTag = 0 ∧ occCount e.answer aiTag = 0) :
    occCount (buildPrompt q h) aiTag = h.length := by
  have hsq : occCount (stripCL q) aiTag = 0 := by
    rw [occCount_stripCL_eq q aiTag_ne_nil aiTag_no_ws, hq]
  rw [buildPrompt, promptHead, promptTail]
  simp only [List.append_assoc, List.cons_append, List.nil_append]
  rw [occCount_append_of_head_notMem headCore
    (head_notMem_of_cons _ (by decide : ('\n' : Char) ∉ aiTag))]
  rw [occ_headCore_ai]
  rw [occCount_cons_ne_ai '\n' _ (by decide), occCount_cons_ne_ai '\n' _ (by decide)]
  rw [occCount_append_of_head_notMem _
    (head_notMem_of_cons _ (by decide : ('\n' : Char) ∉ aiTag)), hsq]
  rw [occCount_cons_ne_ai '\n' _ (by decide), occCount_cons_ne_ai '\n' _ (by decide)]
  cases h with
  | nil =>
    rw [previousContextText, if_pos rfl, List.nil_append]
    rw [occCount_cons_ne_ai '\n' _ (by decide), occ_tailCore_ai]
    simp
  | cons e t =>
    rw [previousContextText, if_neg (by simp), prevHeader]
    simp only [List.append_assoc, List.cons_append, List.nil_append]
    rw [occCount_append_of_head_notMem prevHeaderCore
      (head_notMem_of_cons _ (by decide : ('\n' : Char) ∉ aiTag))]
    rw [occ_prevHeaderCore_ai]
    rw [occCount_cons_ne_ai '\n' _ (by decide)]
    rw [occCount_append_of_head_notMem _
      (head_notMem_of_cons _ (by decide : ('\n' : Char) ∉ aiTag))]
    rw [occCount_cons_ne_ai '\n' _ (by decide), occ_tailCore_ai]
    rw [occ_joinSep_ai (e :: t) hh]
    simp

/-- C3: for a session with no stored exchanges the built prompt has no
"Previous conversation" block (it is exactly head, trimmed query and
tail); for a session with `N` stored exchanges — none of whose recorded
texts themselves contain a "Farmer:"/"AI:" tag — the prompt contains
exactly `N` "Farmer:" tags and exactly `N` "AI:" tags, one pair per
stored exchange, rendered in insertion order. -/
theorem C3_prompt_history (q : List Char) (h : List Exchange)
    (hq : occCount q farmerTag = 0 ∧ occCount q aiTag = 0)
    (hh : ∀ e ∈ h,
      (occCount e.query farmerTag = 0 ∧ occCount e.answer farmerTag = 0) ∧
      (occCount e.query aiTag = 0 ∧ occCount e.answer aiTag = 0)) :
    (h = [] → buildPrompt q h =
      promptHead ++ stripCL q ++ ('\n' :: '\n' :: []) ++ promptTail) ∧
    occCount (buildPrompt q h) farmerTag = h.length ∧
    occCount (buildPrompt q h) aiTag = h.length ∧
    (h ≠ [] → previousContextText h =
      prevHeader ++ joinSep ['\n'] (h.map renderExchange)) := by
  refine ⟨?_, occ_buildPrompt_farmer q h hq.1 (fun e he => (hh e he).1),
    occ_buildPrompt_ai q h hq.2 (fun e he => (hh e he).2), ?_⟩
  · intro hnil
    subst hnil
    simp [buildPrompt, previousContextText]
  · intro hne
    rw [previousContextText, if_neg hne]





/-- Witness for C3 at a concrete query and two-exchange history. -/
theorem C3_prompt_history_witness :
    (occCount c3WitnessQuery farmerTag = 0 ∧ occCount c3WitnessQuery aiTag = 0) ∧
    (∀ e ∈ c3WitnessHistory,
      (occCount e.query farmerTag = 0 ∧ occCount e.answer farmerTag = 0) ∧
      (occCount e.query aiTag = 0 ∧ occCount e.answer aiTag = 0)) ∧
    ((c3WitnessHistory = [] → buildPrompt c3WitnessQuery c3WitnessHistory =
      promptHead ++ stripCL c3WitnessQuery ++ ('\n' :: '\n' :: []) ++ promptTail) ∧
    occCount (buildPrompt c3WitnessQuery c3WitnessHistory) farmerTag =
      c3WitnessHistory.length ∧
    occCount (buildPrompt c3WitnessQuery c3WitnessHistory) aiTag =
      c3WitnessHistory.length ∧
    (c3WitnessHistory ≠ [] → previousContextText c3WitnessHistory =
      prevHeader ++ joinSep ['\n'] (c3WitnessHistory.map renderExchange))) :=
  ⟨⟨by decide, by decide⟩, by decide,
    C3_prompt_history c3WitnessQuery c3WitnessHistory ⟨by decide, by decide⟩ (by decide)⟩

/-! ### Claim C6 -/



theorem mem_getSession_of_step {st st' : SessionStore} {req : FarmerQuery}
    {outcome : ModelOutcome} {r : Except Unit FarmerResponse}
    (hc : farmer_husbandry_assistant st req outcome = (r, st'))
    {sid : List Char} {e : Exchange} (he : e ∈ getSession st sid) :
    e ∈ getSession st' sid := by
  have hupd : ∀ q a : List Char, e ∈ getSession (appendExchange st req.session_id q a) sid := by
    intro q a
    by_cases hs : req.session_id = sid
    · subst hs
      rw [getSession_appendExchange_same]
      exact List.mem_append_left _ he
    · rw [getSession_appendExchange_other st _ _ hs]
      exact he
  cases outcome with
  | success raw =>
    simp only [farmer_husbandry_assistant] at hc
    rw [Prod.mk.injEq] at hc
    rw [← hc.2]
    exact hupd _ _
  | googleAPIError =>
    simp only [farmer_husbandry_assistant] at hc
    rw [Prod.mk.injEq] at hc
    rw [← hc.2]
    exact hupd _ _
  | otherException =>
    simp only [farmer_husbandry_assistant] at hc
    rw [Prod.mk.injEq] at hc
    rw [← hc.2]
    exact he

theorem mem_getSession_of_reaches {st st' : SessionStore} (h : Reaches st st')
    {sid : List Char} {e : Exchange} (he : e ∈ getSession st sid) :
    e ∈ getSession st' sid := by
  induction h with
  | refl => exact he
  | step req outcome r hr hc ih => exact mem_getSession_of_step hc ih

theorem joinSep_infix_of_mem {x : List Char} {xs : List (List Char)} (sep : List Char)
    (h : x ∈ xs) : ∃ u v, joinSep sep xs = u ++ (x ++ v) := by
  induction xs with
  | nil => simp at h
  | cons y t ih =>
    cases t with
    | nil =>
      simp only [List.mem_singleton] at h
      subst h
      exact ⟨[], [], by simp [joinSep]⟩
    | cons y2 t2 =>
      rcases List.mem_cons.mp h with he | ht
      · subst he
        refine ⟨[], sep ++ joinSep sep (y2 :: t2), ?_⟩
        simp [joinSep, List.append_assoc]
      · obtain ⟨u, v, huv⟩ := ih ht
        refine ⟨y ++ sep ++ u, v, ?_⟩
        simp [joinSep, huv, List.append_assoc]

theorem containsSub_of_parts {y x : List Char} (h : ∃ u v, y = u ++ (x ++ v)) :
    containsSub y x = true := by
  obtain ⟨u, v, rfl⟩ := h
  have hpre : hasPrefixCL x ((u ++ (x ++ v)).drop u.length) = true := by
    rw [List.drop_left]
    exact hasPrefixCL_append_self x v
  have hsome := findSub_isSome_of_hasPrefixCL hpre
  unfold containsSub
  exact hsome

theorem render_infix_buildPrompt {e : Exchange} {h : List Exchange} (q : List Char)
    (he : e ∈ h) :
    ∃ u v, buildPrompt q h = u ++ (renderExchange e ++ v) := by
  obtain ⟨u, v, huv⟩ :=
    joinSep_infix_of_mem ['\n'] (List.mem_map_of_mem renderExchange he)
  have hne : h ≠ [] := by rintro rfl; simp at he
  refine ⟨promptHead ++ stripCL q ++ ('\n' :: '\n' :: []) ++ prevHeader ++ u,
    v ++ promptTail, ?_⟩
  rw [buildPrompt, previousContextText, if_neg hne, huv]
  simp [List.append_assoc]

/-- C6: after a successful request, every subsequent request with the
same session id builds a prompt that contains the earlier exchange —
its query on a "Farmer:" line directly followed by its answer on an
"AI:" line (the full rendering of the stored exchange). -/
theorem C6_session_history_in_prompt (st : SessionStore) (req : FarmerQuery)
    (raw : List Char) (resp : FarmerResponse) (st' st₂ : SessionStore)
    (req₂ : FarmerQuery)
    (h : farmer_husbandry_assistant st req (ModelOutcome.success raw) =
      (Except.ok resp, st'))
    (hr : Reaches st' st₂)
    (hs : req₂.session_id = req.session_id) :
    containsSub (handlerPrompt st₂ req₂)
      (renderExchange ⟨req.query, resp.answer⟩) = true := by
  obtain ⟨hst, -⟩ := farmer_ok_inv h
  have hmem : (⟨req.query, resp.answer⟩ : Exchange) ∈ getSession st' req.session_id := by
    rw [hst, getSession_appendExchange_same]
    simp
  have hmem2 := mem_getSession_of_reaches hr hmem
  rw [handlerPrompt, hs]
  exact containsSub_of_parts (render_infix_buildPrompt _ hmem2)



/-- Witness for C6: a successful request on session "s1" followed by a
second request on the same session. -/
theorem C6_session_history_in_prompt_witness :
    farmer_husbandry_assistant [] ⟨"q1".toList, "s1".toList⟩
        (ModelOutcome.success "Answer: a1 Context: c1".toList) =
      (Except.ok ⟨"a1".toList, "c1".toList, disclaimerNote⟩, c6Store1) ∧
    Reaches c6Store1 c6Store1 ∧
    (FarmerQuery.mk "q2".toList "s1".toList).session_id =
      (FarmerQuery.mk "q1".toList "s1".toList).session_id ∧
    containsSub (handlerPrompt c6Store1 ⟨"q2".toList, "s1".toList⟩)
      (renderExchange ⟨"q1".toList, "a1".toList⟩) = true :=
  ⟨rfl, Reaches.refl c6Store1, rfl,
    C6_session_history_in_prompt [] ⟨"q1".toList, "s1".toList⟩
      "Answer: a1 Context: c1".toList
      ⟨"a1".toList, "c1".toList, disclaimerNote⟩ c6Store1 c6Store1
      ⟨"q2".toList, "s1".toList⟩ rfl (Reaches.refl c6Store1) rfl⟩
